import Mathlib

/-!
Shallow embedding of IMessageVector.cpp.

The unit defines the abstract class template `IMessageVector<IMsg>` with its nested
`Iterator<Return, Cont, reverse>`, and the concrete `MessageVector<IMsg, DerivedMsg>`
that keeps a `std::vector<DerivedMsg> data`.

Modelling conventions

* `int` is the 32-bit two's complement integer, `size_type` (`std::size_t`) is 64 bits wide
  (an LP64 platform).  Values of both are carried in `Int` / `Nat`; every conversion and every
  signed operation that can overflow is written out (`int_of_size_type`, `size_type_of_int`,
  `int_negate`, `int_increment`).
* A call has an `Outcome`: it returns (`ok`), it leaves by an exception (`throw`), or the C++
  standard places no requirement on it (`undefined`).
* Loops take a fuel argument and answer `none` when the fuel is used up; theorems about them are
  stated for every fuel above an explicit bound.
* `std::vector` is the sequence of its elements together with its capacity.  `reserve(n)` throws
  `std::length_error` for `n` above `max_size()`, which is `PTRDIFF_MAX / sizeof(T)`; element
  types have `sizeof(T)` of at most 2^32 bytes.  Memory itself is never exhausted
  (`std::bad_alloc` is outside the model), and no vector holds `max_size()` elements, so
  `push_back` does not reach its `std::length_error`.  Element copies are pure and total.
* An object reached through an `IMsg&` is tagged with its dynamic type: `IMsg.derived` when the
  object is a `DerivedMsg`, `IMsg.other` when it is not.
-/

namespace MsgVec

/-! ## Outcomes -/

/-- Exceptions that the unit throws, catches or lets through: `std::runtime_error` (line 137),
`std::bad_cast` (line 161), and the `std::length_error` of `std::vector::reserve`
(lines 91, 163). -/
inductive Exception where
  | runtime_error (what : String)
  | bad_cast
  | length_error
  deriving DecidableEq

/-- Result of running a piece of C++: normal return, an exception reaching the caller, or
undefined behaviour. -/
inductive Outcome (α : Type) where
  | ok (a : α)
  | throw (e : Exception)
  | undefined
  deriving DecidableEq

/-- Sequencing: the continuation runs only after a normal return. -/
def Outcome.bind {α β : Type} (x : Outcome α) (f : α → Outcome β) : Outcome β :=
  match x with
  | .ok a => f a
  | .throw e => .throw e
  | .undefined => .undefined

/-- Post-processing of a returned value. -/
def Outcome.map {α β : Type} (f : α → β) (x : Outcome α) : Outcome β :=
  match x with
  | .ok a => .ok (f a)
  | .throw e => .throw e
  | .undefined => .undefined

/-! ## Machine integers -/

/-- Largest `int`. -/
def INT_MAX : Int := 2147483647

/-- Smallest `int`. -/
def INT_MIN : Int := -2147483648

/-- Conversion `size_type → int`, as happens when `size()` is passed to the `int offset`
parameter of the Iterator constructor (lines 64, 66): the value is reduced modulo 2^32 into
the range of `int`. -/
def int_of_size_type (n : Nat) : Int :=
  if n % 4294967296 < 2147483648 then ((n % 4294967296 : Nat) : Int)
  else ((n % 4294967296 : Nat) : Int) - 4294967296

/-- Conversion `int → size_type`, as happens when the `int index` is passed to
`operator[](size_type)` (lines 30, 31): the value is reduced modulo 2^64. -/
def size_type_of_int (i : Int) : Nat :=
  (i % 18446744073709551616).toNat

/-- Unary minus on `int` (lines 33, 111); negating `INT_MIN` overflows. -/
def int_negate (x : Int) : Outcome Int :=
  if x = INT_MIN then .undefined else .ok (-x)

/-- Post-increment of an `int` object (line 113); incrementing `INT_MAX` overflows. -/
def int_increment (x : Int) : Outcome Int :=
  if x = INT_MAX then .undefined else .ok (x + 1)

/-! ## Elements -/

/-- An object referred to by an `IMsg&`.  `derived d`: the object is a `DerivedMsg` and `d` is
the value of that object.  `other o`: the object is of a class that is not `DerivedMsg`. -/
inductive IMsg (D O : Type) where
  | derived (d : D)
  | other (o : O)
  deriving DecidableEq

/-- The conversion `static_cast<const DerivedMsg&>(rhs)` (lines 95, 96, 165).  No run-time check
is made; using the result when the object is not a `DerivedMsg` is undefined. -/
def static_cast_DerivedMsg {D O : Type} : IMsg D O → Outcome D
  | .derived d => .ok d
  | .other _ => .undefined

/-- Implicit conversion `DerivedMsg& → IMsg&` (covariant return of `operator[]`). -/
def upcast {D O : Type} (d : D) : IMsg D O := .derived d

/-! ## std::vector -/

/-- What `std::vector<T>` takes from its element type `T`: `sizeof(T)`, which is positive and
at most 2^32 bytes. -/
class ElementType (α : Type) where
  sizeof : Nat
  sizeof_pos : 0 < sizeof
  sizeof_le : sizeof ≤ 4294967296

/-- The `std::vector<T>`: its elements in order and its capacity. -/
structure StdVector (α : Type) where
  elems : List α
  cap : Nat
  deriving DecidableEq

namespace StdVector

variable {α : Type}

/-- Default constructor. -/
def default_ctor : StdVector α := ⟨[], 0⟩

/-- Copy constructor. -/
def copy_ctor (rhs : StdVector α) : StdVector α := ⟨rhs.elems, rhs.elems.length⟩

/-- Member `size()`. -/
def size (v : StdVector α) : Nat := v.elems.length

/-- Member `capacity()`. -/
def capacity (v : StdVector α) : Nat := v.cap

/-- Member `empty()`. -/
def empty (v : StdVector α) : Bool := v.elems.isEmpty

/-- Member `clear()`: all elements are destroyed, the storage is kept. -/
def clear (v : StdVector α) : StdVector α := ⟨[], v.cap⟩

/-- Member `max_size()`: `PTRDIFF_MAX / sizeof(T)`, the largest number of elements a
`std::vector<T>` accepts (the value of libstdc++). -/
def max_size (α : Type) [ElementType α] : Nat :=
  9223372036854775807 / ElementType.sizeof α

/-- Member `reserve(n)`: throws `std::length_error` when `n` is above `max_size()` and leaves
the vector as it is; otherwise storage grows to `n` when it is smaller. -/
def reserve [ElementType α] (v : StdVector α) (n : Nat) : Outcome (StdVector α) :=
  if max_size α < n then .throw .length_error
  else .ok (if v.cap < n then ⟨v.elems, n⟩ else v)

/-- Member `operator[](idx)`: no bounds check, undefined when `idx` is not below `size()`. -/
def subscript (v : StdVector α) (idx : Nat) : Outcome α :=
  match v.elems[idx]? with
  | some x => .ok x
  | none => .undefined

/-- Member `push_back(x)`: `x` is copied to the end; full storage is doubled. -/
def push_back (v : StdVector α) (x : α) : StdVector α :=
  ⟨v.elems ++ [x],
   if v.elems.length < v.cap then v.cap else v.elems.length + max v.elems.length 1⟩

/-- Copy assignment `v = rhs`. -/
def copy_assign (v rhs : StdVector α) : StdVector α :=
  ⟨rhs.elems, if v.cap < rhs.elems.length then rhs.elems.length else v.cap⟩

/-- Move assignment `v = std::move(rhs)`: `v` takes over the storage of `rhs`. -/
def move_assign (_v rhs : StdVector α) : StdVector α := ⟨rhs.elems, rhs.cap⟩

end StdVector

/-! ## MessageVector -/

/-- Class `MessageVector<IMsg, DerivedMsg>` (lines 71-99): the one data member `data`. -/
structure MessageVector (D O : Type) where
  data : StdVector D
  deriving DecidableEq

namespace MessageVector

variable {D O : Type}

/-- Line 80: `MessageVector() = default`. -/
def default_ctor : MessageVector D O := ⟨StdVector.default_ctor⟩

/-- Line 82: `MessageVector(const std::vector<DerivedMsg>& rhs) : data(rhs)`. -/
def from_vector (rhs : StdVector D) : MessageVector D O := ⟨StdVector.copy_ctor rhs⟩

/-- Line 83: `MessageVector(std::vector<DerivedMsg>&& rhs) : data(rhs)`; the named parameter
is an lvalue, so `data` is copy-constructed here too. -/
def from_vector_rvalue (rhs : StdVector D) : MessageVector D O := ⟨StdVector.copy_ctor rhs⟩

/-- Line 87. -/
def size (S : MessageVector D O) : Nat := S.data.size

/-- Line 88. -/
def capacity (S : MessageVector D O) : Nat := S.data.capacity

/-- Line 89. -/
def empty (S : MessageVector D O) : Bool := S.data.empty

/-- Line 90. -/
def clear (S : MessageVector D O) : MessageVector D O := ⟨S.data.clear⟩

/-- Line 91: `reserve(numOfElements) { return data.reserve(numOfElements); }`. -/
def reserve [ElementType D] (S : MessageVector D O) (numOfElements : Nat) :
    Outcome (MessageVector D O) :=
  (S.data.reserve numOfElements).map fun d => ⟨d⟩

/-- Line 93: `DerivedMsg& operator[](size_type idx) { return data[idx]; }`. -/
def operator_index (S : MessageVector D O) (idx : Nat) : Outcome D :=
  S.data.subscript idx

/-- Line 94: `const DerivedMsg& operator[](size_type idx) const { return data[idx]; }`. -/
def operator_index_const (S : MessageVector D O) (idx : Nat) : Outcome D :=
  S.data.subscript idx

/-- Line 95: `push_back(const IMsg& rhs)`: cast, then append a copy. -/
def push_back (S : MessageVector D O) (rhs : IMsg D O) : Outcome (MessageVector D O) :=
  (static_cast_DerivedMsg rhs).bind fun d => .ok ⟨S.data.push_back d⟩

/-- Line 96: `push_back(IMsg&& rhs)`: the cast yields an lvalue, so a copy is appended. -/
def push_back_rvalue (S : MessageVector D O) (rhs : IMsg D O) : Outcome (MessageVector D O) :=
  (static_cast_DerivedMsg rhs).bind fun d => .ok ⟨S.data.push_back d⟩

end MessageVector

/-! ## IMessageVector -/

/-- An object of static type `IMessageVector<IMsg>` behind a reference or pointer.  `addr` is
the address of the instance.  `messageVector`: the object is a
`MessageVector<IMsg, DerivedMsg>`.  `other`: the object is of another class implementing the
interface, for instance a `MessageVector<IMsg, Other>` over another element class; `elems` are
the objects its `operator[]` yields at 0, 1, ..., `size() - 1`. -/
inductive IMessageVector (D O : Type) where
  | messageVector (addr : Nat) (S : MessageVector D O)
  | other (addr : Nat) (elems : List (IMsg D O))

namespace IMessageVector

variable {D O : Type}

/-- Address of the instance (the value of a pointer to it). -/
def addr : IMessageVector D O → Nat
  | .messageVector a _ => a
  | .other a _ => a

/-- Line 50: virtual `size()`. -/
def size : IMessageVector D O → Nat
  | .messageVector _ S => S.size
  | .other _ elems => elems.length

/-- Lines 56-57: virtual `operator[]`, mutable and read-only (both overloads of an
implementation yield the same object).  The `DerivedMsg&` of a MessageVector is seen as
`IMsg&`.  Another implementation is unconstrained outside its range. -/
def operator_index : IMessageVector D O → Nat → Outcome (IMsg D O)
  | .messageVector _ S, idx => (S.operator_index_const idx).map upcast
  | .other _ elems, idx =>
    match elems[idx]? with
    | some x => .ok x
    | none => .undefined

end IMessageVector

/-! ## Iterator -/

/-- Class `Iterator<Return, Cont, reverse>` (lines 17-42): the pointer `vp` (the instance it
points to, with its address) and the `int index`. -/
structure Iterator (D O : Type) (reverse : Bool) where
  vp : IMessageVector D O
  index : Int

namespace Iterator

variable {D O : Type} {reverse : Bool}

/-- Line 24: `Iterator(Cont& container, int offset) : vp{&container}, index{offset}`. -/
def ctor (container : IMessageVector D O) (offset : Int) : Iterator D O reverse :=
  ⟨container, offset⟩

/-- Line 31: `operator*() const { return (*vp)[index]; }`; the `int` is converted to
`size_type`.  Line 30, `operator->`, takes the address of the same object. -/
def deref (it : Iterator D O reverse) : Outcome (IMsg D O) :=
  it.vp.operator_index (size_type_of_int it.index)

/-- Lines 106-115: `operator+=(int offset)`.  The parameter is negated for a reverse
iterator, then `index` is incremented; the parameter is not read again. -/
def operator_add_assign (it : Iterator D O reverse) (offset : Int) :
    Outcome (Iterator D O reverse) :=
  (if reverse then int_negate offset else .ok offset).bind fun _ =>
    (int_increment it.index).bind fun i => .ok ⟨it.vp, i⟩

/-- Line 33: `operator-=(int offset) { return (*this) += -offset; }`. -/
def operator_sub_assign (it : Iterator D O reverse) (offset : Int) :
    Outcome (Iterator D O reverse) :=
  (int_negate offset).bind fun m => it.operator_add_assign m

/-- Line 34: `operator++() { return (*this) += 1; }`. -/
def operator_incr (it : Iterator D O reverse) : Outcome (Iterator D O reverse) :=
  it.operator_add_assign 1

/-- Line 35: `operator--() { return (*this) -= 1; }`. -/
def operator_decr (it : Iterator D O reverse) : Outcome (Iterator D O reverse) :=
  it.operator_sub_assign 1

/-- Lines 117-125: `operator==`: pointers are compared first, then indices. -/
def operator_eq (it rhs : Iterator D O reverse) : Bool :=
  if it.vp.addr ≠ rhs.vp.addr then false else decide (it.index = rhs.index)

/-- Line 37: `operator!=(rhs) { return !(*this == rhs); }`. -/
def operator_ne (it rhs : Iterator D O reverse) : Bool :=
  !(it.operator_eq rhs)

end Iterator

namespace IMessageVector

variable {D O : Type}

/-- Line 63: `begin() { return iterator(*this, 0); }`. -/
def begin (c : IMessageVector D O) : Iterator D O false := Iterator.ctor c 0

/-- Line 64: `end() { return iterator(*this, size()); }`. -/
def end_ (c : IMessageVector D O) : Iterator D O false :=
  Iterator.ctor c (int_of_size_type c.size)

/-- Line 65: `cbegin() const { return const_iterator(*this, 0); }`. -/
def cbegin (c : IMessageVector D O) : Iterator D O false := Iterator.ctor c 0

/-- Line 66: `cend() const { return const_iterator(*this, size()); }`. -/
def cend (c : IMessageVector D O) : Iterator D O false :=
  Iterator.ctor c (int_of_size_type c.size)

/-- Line 67: `begin() const { return cbegin(); }`. -/
def begin_const (c : IMessageVector D O) : Iterator D O false := c.cbegin

/-- Line 68: `end() const { return cend(); }`. -/
def end_const (c : IMessageVector D O) : Iterator D O false := c.cend

/-! The member `find_if` (lines 132-140) has no embedding.  Its `return *it;` binds the `const IMsg&` that
a `const_iterator` yields (lines 20, 31, 46) to the return type `IMsg&` (line 60), and it hands
`std::find_if` an iterator tagged random-access that has no `operator-` (lines 18, 32-37): the
function is ill-formed for every element type a MessageVector can be made of, so it has no
run-time behaviour. -/

end IMessageVector

namespace MessageVector

variable {D O : Type}

/-- Line 159: `dynamic_cast<const MessageVector<IMsg, DerivedMsg>&>(rhs)`; a reference cast
that fails throws `std::bad_cast`. -/
def dynamic_cast_MessageVector : IMessageVector D O → Outcome (MessageVector D O)
  | .messageVector _ S => .ok S
  | .other _ _ => .throw .bad_cast

/-- Lines 164-166: the range-based for loop over `rhs`, from `it` up to `last`: each element is
cast with `static_cast<const DerivedMsg&>` and appended to `v`. -/
def assign_loop :
    Nat → Iterator D O false → Iterator D O false → StdVector D → Option (Outcome (StdVector D))
  | 0, _, _, _ => none
  | fuel + 1, it, last, v =>
    if it.operator_ne last then
      match it.deref with
      | .ok element =>
        match static_cast_DerivedMsg element with
        | .ok d =>
          match it.operator_incr with
          | .ok next => assign_loop fuel next last (v.push_back d)
          | .throw e => some (.throw e)
          | .undefined => some .undefined
        | .throw e => some (.throw e)
        | .undefined => some .undefined
      | .throw e => some (.throw e)
      | .undefined => some .undefined
    else some (.ok v)

/-- Lines 156-169: `assign(const IMessageVector<IMsg>& rhs)`.  The `try` block copy-assigns the
other vector's `data`; the handler of `std::bad_cast` reserves a local vector, fills it through
the iterators of `rhs` and move-assigns it to `data`.  An exception of `reserve` leaves the
handler and the function. -/
def assign [ElementType D] (fuel : Nat) (self : MessageVector D O)
    (rhs : IMessageVector D O) : Option (Outcome (MessageVector D O)) :=
  match dynamic_cast_MessageVector rhs with
  | .ok r => some (.ok ⟨self.data.copy_assign r.data⟩)
  | .throw .bad_cast =>
    match (StdVector.default_ctor : StdVector D).reserve rhs.size with
    | .ok v =>
      match assign_loop fuel rhs.begin_const rhs.end_const v with
      | none => none
      | some (.ok w) => some (.ok ⟨self.data.move_assign w⟩)
      | some (.throw e) => some (.throw e)
      | some .undefined => some .undefined
    | .throw e => some (.throw e)
    | .undefined => some .undefined
  | .throw e => some (.throw e)
  | .undefined => some .undefined

end MessageVector

/-! ## Client code -/

/-- The visit of a range by a client: `n` times, read `*it` and then step with `++it`. -/
def visit {D O : Type} {reverse : Bool} :
    Nat → Iterator D O reverse → Outcome (List (IMsg D O))
  | 0, _ => .ok []
  | n + 1, it =>
    it.deref.bind fun x =>
      it.operator_incr.bind fun next =>
        (visit n next).bind fun xs => .ok (x :: xs)

/-- The loop `for (auto it = S.begin(); it != S.end(); ++it)` of a client whose body reads
`*it` once, run from `it` up to `last`: the offsets at which `*it` was read, each with the
object read there, in the order of the iterations. -/
def forward_loop {D O : Type} :
    Nat → Iterator D O false → Iterator D O false → Option (Outcome (List (Int × IMsg D O)))
  | 0, _, _ => none
  | fuel + 1, it, last =>
    if it.operator_ne last then
      match it.deref with
      | .ok x =>
        match it.operator_incr with
        | .ok next =>
          match forward_loop fuel next last with
          | none => none
          | some (.ok rest) => some (.ok ((it.index, x) :: rest))
          | some (.throw e) => some (.throw e)
          | some .undefined => some .undefined
        | .throw e => some (.throw e)
        | .undefined => some .undefined
      | .throw e => some (.throw e)
      | .undefined => some .undefined
    else some (.ok [])

/-- The MessageVector objects of a program, by address. -/
abbrev Store (D O : Type) := Nat → Option (MessageVector D O)

namespace Store

variable {D O : Type}

/-- The store after the object at address `a` has taken the state `S`. -/
def update (σ : Store D O) (a : Nat) (S : MessageVector D O) : Store D O :=
  fun x => if x = a then some S else σ x

/-- Statement `B.assign(A)`, with `B` the object at `b` and `A` the object at `a`. -/
def call_assign [ElementType D] (fuel : Nat) (σ : Store D O) (b a : Nat) :
    Option (Outcome (Store D O)) :=
  match σ b, σ a with
  | some B, some A =>
    match B.assign fuel (.messageVector a A) with
    | none => none
    | some (.ok B1) => some (.ok (σ.update b B1))
    | some (.throw e) => some (.throw e)
    | some .undefined => some .undefined
  | _, _ => some .undefined

/-- Statement `B.push_back(x)`, with `B` the object at `b`. -/
def call_push_back (σ : Store D O) (b : Nat) (x : IMsg D O) : Outcome (Store D O) :=
  match σ b with
  | some B => (B.push_back x).map fun B1 => σ.update b B1
  | none => .undefined

/-- Statement `B.clear()`, with `B` the object at `b`. -/
def call_clear (σ : Store D O) (b : Nat) : Outcome (Store D O) :=
  match σ b with
  | some B => .ok (σ.update b B.clear)
  | none => .undefined

end Store

/-! ## The classes A and B of lines 171-182 -/

/-- An object whose dynamic type is `A` itself: the member `int value`. -/
structure A where
  value : Int
  deriving DecidableEq

/-- An object whose dynamic type is `B`: the member `value` inherited from `A`. -/
structure B where
  value : Int
  deriving DecidableEq

/-- The class `B` on the platform of the model: a vtable pointer and an `int`, 16 bytes. -/
instance instElementTypeB : ElementType B := ⟨16, by decide, by decide⟩

/-- Member `value` read through an `A&`. -/
def IMsg.value : IMsg B A → Int
  | .derived b => b.value
  | .other a => a.value

/-- A `MessageVector<A, B>` holding B objects with the listed values. -/
def vecAB (values : List Int) : MessageVector B A :=
  MessageVector.from_vector ⟨values.map B.mk, values.length⟩

/-- A `MessageVector<A, B>` holding 2^32 B objects, each of value 1. -/
def bigVec : MessageVector B A := ⟨⟨List.replicate 4294967296 (B.mk 1), 4294967296⟩⟩

/-- A sequence of another implementation (a `MessageVector<A, A>`) at address 0, holding 2^32
objects of dynamic type `A`, each of value 1. -/
def bigOther : IMessageVector B A := .other 0 (List.replicate 4294967296 (.other (A.mk 1)))

/-- A sequence of another implementation at address 0, holding 2^32 objects that are `B`
objects, each of value 1. -/
def bigDerived : IMessageVector B A := .other 0 (List.replicate 4294967296 (.derived (B.mk 1)))

/-- A sequence of another implementation, at address 7, holding a `B` object followed by an
`A` object. -/
def mixedSource : IMessageVector B A := .other 7 [.derived ⟨3⟩, .other ⟨4⟩]

/-- A store with `A = [10, 20, 30]` at address 1 and an empty `B` at address 2. -/
def store12 : Store B A := fun x =>
  if x = 1 then some (vecAB [10, 20, 30])
  else if x = 2 then some MessageVector.default_ctor
  else none

/-! ## Basic facts about outcomes and std::vector -/

section Basics

variable {D O : Type}

theorem subscript_lt {α : Type} (v : StdVector α) (i : Nat) (h : i < v.elems.length) :
    v.subscript i = .ok (v.elems.get ⟨i, h⟩) := by
  simp [StdVector.subscript, List.getElem?_eq_getElem h]

theorem subscript_ge {α : Type} (v : StdVector α) (i : Nat) (h : v.elems.length ≤ i) :
    v.subscript i = .undefined := by
  simp [StdVector.subscript, List.getElem?_eq_none h]

theorem INT_MAX_le_max_size (α : Type) [ElementType α] :
    2147483647 ≤ StdVector.max_size α := by
  have h1 := ElementType.sizeof_pos (α := α)
  have h2 := ElementType.sizeof_le (α := α)
  unfold StdVector.max_size
  rw [Nat.le_div_iff_mul_le h1]
  omega

theorem reserve_of_le {α : Type} [ElementType α] (v : StdVector α) (n : Nat)
    (h : n ≤ StdVector.max_size α) :
    v.reserve n = .ok (if v.cap < n then ⟨v.elems, n⟩ else v) := by
  unfold StdVector.reserve
  rw [if_neg (by omega)]

theorem reserve_of_gt {α : Type} [ElementType α] (v : StdVector α) (n : Nat)
    (h : StdVector.max_size α < n) : v.reserve n = .throw .length_error := by
  unfold StdVector.reserve
  rw [if_pos h]

theorem reserve_default {α : Type} [ElementType α] (n : Nat)
    (h : n ≤ StdVector.max_size α) :
    (StdVector.default_ctor : StdVector α).reserve n = .ok ⟨[], n⟩ := by
  rw [reserve_of_le _ n h]
  by_cases h0 : 0 < n
  · simp [StdVector.default_ctor, h0]
  · have : n = 0 := by omega
    simp [StdVector.default_ctor, this]

end Basics

section Loops

variable {D O : Type}

theorem size_type_of_int_natCast (i : Nat) (h : i < 18446744073709551616) :
    size_type_of_int (i : Int) = i := by
  unfold size_type_of_int
  omega

theorem int_of_size_type_small (n : Nat) (h : n ≤ 2147483647) :
    int_of_size_type n = (n : Int) := by
  unfold int_of_size_type
  have h1 : n % 4294967296 = n := Nat.mod_eq_of_lt (by omega)
  rw [h1, if_pos (by omega)]

theorem forward_incr (it : Iterator D O false) (h : it.index ≠ INT_MAX) :
    it.operator_incr = .ok ⟨it.vp, it.index + 1⟩ := by
  simp [Iterator.operator_incr, Iterator.operator_add_assign, Outcome.bind, int_increment, h]

theorem operator_ne_same (c : IMessageVector D O) (i j : Int) {r : Bool} :
    Iterator.operator_ne (⟨c, i⟩ : Iterator D O r) ⟨c, j⟩ = decide (i ≠ j) := by
  simp [Iterator.operator_ne, Iterator.operator_eq]

theorem deref_natCast (c : IMessageVector D O) (i : Nat) (h : i < 18446744073709551616)
    {r : Bool} : Iterator.deref (⟨c, (i : Int)⟩ : Iterator D O r) = c.operator_index i := by
  simp [Iterator.deref, size_type_of_int_natCast i h]

theorem operator_index_of_lt (c : IMessageVector D O) (i : Nat) (h : i < c.size) :
    ∃ x, c.operator_index i = .ok x := by
  cases c with
  | messageVector a S =>
    have h1 : i < S.data.elems.length := h
    exact ⟨upcast (S.data.elems.get ⟨i, h1⟩), by
      simp [IMessageVector.operator_index, MessageVector.operator_index_const,
        subscript_lt S.data i h1, Outcome.map]⟩
  | other a elems =>
    have h1 : i < elems.length := h
    exact ⟨elems.get ⟨i, h1⟩, by
      simp [IMessageVector.operator_index, List.getElem?_eq_getElem h1]⟩

theorem operator_index_of_ge (c : IMessageVector D O) (i : Nat) (h : c.size ≤ i) :
    c.operator_index i = .undefined := by
  cases c with
  | messageVector a S =>
    have h1 : S.data.elems.length ≤ i := h
    simp [IMessageVector.operator_index, MessageVector.operator_index_const,
      subscript_ge S.data i h1, Outcome.map]
  | other a elems =>
    have h1 : elems.length ≤ i := h
    simp [IMessageVector.operator_index, List.getElem?_eq_none h1]

theorem lt_size_of_operator_index_ok (c : IMessageVector D O) (i : Nat) (x : IMsg D O)
    (h : c.operator_index i = .ok x) : i < c.size := by
  by_contra hge
  rw [operator_index_of_ge c i (by omega)] at h
  cases h

theorem operator_index_other_replicate (a n i : Nat) (x : IMsg D O) (h : i < n) :
    (IMessageVector.other a (List.replicate n x)).operator_index i = .ok x := by
  simp [IMessageVector.operator_index, List.getElem?_replicate, h]

/-- A `MessageVector<A, B>` at address 0 holding 2^32 B objects, each with value 1. -/
theorem big_size :
    (IMessageVector.messageVector 0 bigVec).size = 4294967296 := by
  show (List.replicate 4294967296 (B.mk 1)).length = 4294967296
  exact List.length_replicate _ _

theorem store_update_same (σ : Store D O) (a : Nat) (S : MessageVector D O) :
    σ.update a S a = some S := by
  simp [Store.update]

theorem store_update_other (σ : Store D O) (a b : Nat) (S : MessageVector D O) (h : a ≠ b) :
    σ.update b S a = σ a := by
  simp [Store.update, h]

theorem assign_loop_hits_other (c : IMessageVector D O) (last : Int) (k : Nat) (o : O)
    (hk : (k : Int) < last) (hlast : last ≤ INT_MAX)
    (hx : c.operator_index k = .ok (.other o)) :
    ∀ (fuel i : Nat) (v : StdVector D), i ≤ k → k - i < fuel →
      (∀ j, i ≤ j → j < k → ∃ d, c.operator_index j = .ok (.derived d)) →
      MessageVector.assign_loop fuel ⟨c, (i : Int)⟩ ⟨c, last⟩ v = some .undefined := by
  have hmax : INT_MAX = 2147483647 := rfl
  intro fuel
  induction fuel with
  | zero => intro i _ _ h; omega
  | succ fuel ih =>
    intro i v hik hfuel hbefore
    have hne : Iterator.operator_ne (⟨c, (i : Int)⟩ : Iterator D O false) ⟨c, last⟩ = true := by
      rw [operator_ne_same]; simp; omega
    have hd : Iterator.deref (⟨c, (i : Int)⟩ : Iterator D O false) = c.operator_index i :=
      deref_natCast c i (by omega)
    rw [MessageVector.assign_loop, if_pos hne, hd]
    rcases Nat.lt_or_ge i k with hlt | hge
    · obtain ⟨d, hd1⟩ := hbefore i le_rfl hlt
      have hinc : Iterator.operator_incr (⟨c, (i : Int)⟩ : Iterator D O false)
          = .ok ⟨c, ((i + 1 : Nat) : Int)⟩ := by
        rw [forward_incr _ (by simp only []; omega)]; simp
      rw [hd1]
      simp only [static_cast_DerivedMsg, hinc]
      exact ih (i + 1) _ hlt (by omega) (fun j h1 h2 => hbefore j (by omega) h2)
    · have : i = k := by omega
      subst this
      rw [hx]
      simp [static_cast_DerivedMsg]

/-- Among the indices holding an object that is not a `DerivedMsg` there is a least one. -/
theorem exists_first_other (c : IMessageVector D O)
    (h : ∃ i o, c.operator_index i = .ok (.other o)) :
    ∃ k o, c.operator_index k = .ok (.other o) ∧
      ∀ j, j < k → ∃ d, c.operator_index j = .ok (.derived d) := by
  classical
  let P : Nat → Prop := fun i => ∃ o, c.operator_index i = .ok (.other o)
  have hP : ∃ i, P i := h
  obtain ⟨o, ho⟩ := Nat.find_spec hP
  refine ⟨Nat.find hP, o, ho, ?_⟩
  intro j hj
  have hjs : j < c.size :=
    lt_trans hj (lt_size_of_operator_index_ok c _ _ ho)
  obtain ⟨x, hx⟩ := operator_index_of_lt c j hjs
  cases x with
  | derived d => exact ⟨d, hx⟩
  | other o2 => exact absurd ⟨o2, hx⟩ (Nat.find_min hP hj)

theorem assign_loop_same (fuel : Nat) (it last : Iterator D O false) (v : StdVector D)
    (h : it.operator_ne last = false) :
    MessageVector.assign_loop (fuel + 1) it last v = some (.ok v) := by
  rw [MessageVector.assign_loop, if_neg (by simp [h])]

/-- When the size of another implementation converts to the `int` 0, the loop of `assign` copies
nothing and `data` becomes the empty local vector. -/
theorem assign_of_end_zero [ElementType D] (S : MessageVector D O) (a : Nat)
    (elems : List (IMsg D O)) (fuel : Nat) (h : int_of_size_type elems.length = 0)
    (hmax : elems.length ≤ StdVector.max_size D) :
    S.assign (fuel + 1) (.other a elems) = some (.ok ⟨⟨[], elems.length⟩⟩) := by
  have hne : Iterator.operator_ne (⟨.other a elems, 0⟩ : Iterator D O false)
      ⟨.other a elems, 0⟩ = false := by
    simp [Iterator.operator_ne, Iterator.operator_eq]
  simp only [MessageVector.assign, MessageVector.dynamic_cast_MessageVector,
    IMessageVector.begin_const, IMessageVector.end_const, IMessageVector.cbegin,
    IMessageVector.cend, Iterator.ctor, IMessageVector.size, h, reserve_default _ hmax]
  rw [assign_loop_same fuel _ _ _ hne]
  simp [StdVector.move_assign]

/-- A reverse iterator placed on the last element of a sequence of two or more elements: `++`
moves it to offset `size()`, and the second dereference of a visit is outside the range. -/
theorem reverse_visit_undefined (c : IMessageVector D O) (m : Nat)
    (hsize : c.size = m + 2) (hmax : c.size ≤ 2147483647) :
    visit (m + 2) (Iterator.ctor c ((m + 1 : Nat) : Int) : Iterator D O true) = .undefined := by
  obtain ⟨x, hx⟩ := operator_index_of_lt c (m + 1) (by omega)
  have hd1 : Iterator.deref (⟨c, ((m + 1 : Nat) : Int)⟩ : Iterator D O true) = .ok x := by
    rw [deref_natCast c (m + 1) (by omega), hx]
  have hinc : Iterator.operator_incr (⟨c, ((m + 1 : Nat) : Int)⟩ : Iterator D O true)
      = .ok ⟨c, ((m + 2 : Nat) : Int)⟩ := by
    have h1 : ((m + 1 : Nat) : Int) ≠ INT_MAX := by unfold INT_MAX; omega
    have h2 : (1 : Int) ≠ INT_MIN := by decide
    simp only [Iterator.operator_incr, Iterator.operator_add_assign, Outcome.bind,
      int_increment, int_negate, if_true, if_neg h1, if_neg h2]
    congr 2
  have hd2 : Iterator.deref (⟨c, ((m + 2 : Nat) : Int)⟩ : Iterator D O true) = .undefined := by
    rw [deref_natCast c (m + 2) (by omega), operator_index_of_ge c (m + 2) (by omega)]
  simp only [visit, Iterator.ctor, hd1, hinc, hd2, Outcome.bind]

theorem push_back_capacity {α : Type} (v : StdVector α) (x : α) :
    (v.push_back x).elems.length ≤ (v.push_back x).cap := by
  simp only [StdVector.push_back, List.length_append, List.length_singleton]
  split <;> omega

theorem reserve_capacity {α : Type} [ElementType α] (v w : StdVector α) (n : Nat)
    (hr : v.reserve n = .ok w) (h : v.elems.length ≤ v.cap) : w.elems.length ≤ w.cap := by
  unfold StdVector.reserve at hr
  by_cases hm : StdVector.max_size α < n
  · simp [hm] at hr
  · simp only [if_neg hm, Outcome.ok.injEq] at hr
    subst hr
    by_cases hc : v.cap < n
    · simp only [if_pos hc]
      omega
    · simp only [if_neg hc]
      exact h

/-- The loop of `assign` keeps the size of the local vector within its capacity. -/
theorem assign_loop_capacity :
    ∀ (fuel : Nat) (it last : Iterator D O false) (v w : StdVector D),
      MessageVector.assign_loop fuel it last v = some (.ok w) →
      v.elems.length ≤ v.cap → w.elems.length ≤ w.cap := by
  intro fuel
  induction fuel with
  | zero =>
    intro it last v w h
    simp [MessageVector.assign_loop] at h
  | succ fuel ih =>
    intro it last v w h hv
    rw [MessageVector.assign_loop] at h
    split at h
    · split at h
      · split at h
        · split at h
          · exact ih _ _ _ _ h (push_back_capacity _ _)
          · simp at h
          · simp at h
        · simp at h
        · simp at h
      · simp at h
      · simp at h
    · simp only [Option.some.injEq, Outcome.ok.injEq] at h
      subst h
      exact hv

theorem int_of_size_type_eq_iff (n : Nat) :
    int_of_size_type n = (n : Int) ↔ (n : Int) ≤ INT_MAX := by
  unfold int_of_size_type INT_MAX
  split <;> omega

/-- Any step of an iterator whose `index` is not `INT_MAX`, once the parameter is ready. -/
theorem add_assign_step {r : Bool} (it : Iterator D O r) (delta : Int)
    (hidx : it.index ≠ INT_MAX) (hneg : r = true → delta ≠ INT_MIN) :
    it.operator_add_assign delta = .ok ⟨it.vp, it.index + 1⟩ := by
  cases r with
  | false =>
    simp [Iterator.operator_add_assign, Outcome.bind, int_increment, hidx]
  | true =>
    simp [Iterator.operator_add_assign, Outcome.bind, int_increment, int_negate, hidx,
      hneg rfl]

theorem forward_loop_same (fuel : Nat) (it last : Iterator D O false)
    (h : it.operator_ne last = false) :
    forward_loop (fuel + 1) it last = some (.ok []) := by
  rw [forward_loop, if_neg (by simp [h])]

/-- With at most `INT_MAX` elements, the loop started at offset `i` reads the elements at
`i`, `i + 1`, ..., `size() - 1` and stops. -/
theorem forward_loop_trace (c : IMessageVector D O) (hn : c.size ≤ 2147483647) :
    ∀ (fuel i : Nat), i ≤ c.size → c.size - i < fuel →
      ∃ tr, forward_loop fuel ⟨c, (i : Int)⟩ ⟨c, (c.size : Int)⟩ = some (.ok tr) ∧
        tr.length = c.size - i ∧
        ∀ k p, tr[k]? = some p →
          p.1 = ((i + k : Nat) : Int) ∧ c.operator_index (i + k) = .ok p.2 := by
  have hmax : INT_MAX = 2147483647 := rfl
  intro fuel
  induction fuel with
  | zero => intro i _ h; omega
  | succ fuel ih =>
    intro i hin hfuel
    rcases Nat.lt_or_ge i c.size with hlt | hge
    · have hne : Iterator.operator_ne (⟨c, (i : Int)⟩ : Iterator D O false)
          ⟨c, (c.size : Int)⟩ = true := by
        rw [operator_ne_same]; simp; omega
      have hd : Iterator.deref (⟨c, (i : Int)⟩ : Iterator D O false) = c.operator_index i :=
        deref_natCast c i (by omega)
      obtain ⟨x, hx⟩ := operator_index_of_lt c i hlt
      have hinc : Iterator.operator_incr (⟨c, (i : Int)⟩ : Iterator D O false)
          = .ok ⟨c, ((i + 1 : Nat) : Int)⟩ := by
        rw [forward_incr _ (by simp only []; omega)]; simp
      obtain ⟨tr, htr, hlen, hall⟩ := ih (i + 1) hlt (by omega)
      refine ⟨((i : Int), x) :: tr, ?_, ?_, ?_⟩
      · rw [forward_loop, if_pos hne, hd, hx]
        simp only [hinc, htr]
      · simp only [List.length_cons, hlen]
        omega
      · intro k p hk
        cases k with
        | zero =>
          simp only [List.getElem?_cons_zero, Option.some.injEq] at hk
          subst hk
          exact ⟨rfl, hx⟩
        | succ k =>
          simp only [List.getElem?_cons_succ] at hk
          obtain ⟨h1, h2⟩ := hall k p hk
          have e : i + 1 + k = i + (k + 1) := by omega
          rw [e] at h1 h2
          exact ⟨h1, h2⟩
    · have : i = c.size := by omega
      subst this
      have hne : Iterator.operator_ne (⟨c, (c.size : Int)⟩ : Iterator D O false)
          ⟨c, (c.size : Int)⟩ = false := by
        rw [operator_ne_same]; simp
      refine ⟨[], forward_loop_same fuel _ _ hne, by simp, ?_⟩
      intro k p hk
      simp at hk

theorem foldl_push_back {α : Type} (ds : List α) :
    ∀ v : StdVector α, (ds.foldl StdVector.push_back v).elems = v.elems ++ ds ∧
      (v.elems.length + ds.length ≤ v.cap → (ds.foldl StdVector.push_back v).cap = v.cap) := by
  induction ds with
  | nil => intro v; simp
  | cons d ds ih =>
    intro v
    obtain ⟨h1, h2⟩ := ih (v.push_back d)
    refine ⟨?_, ?_⟩
    · rw [List.foldl_cons, h1]
      simp only [StdVector.push_back, List.append_assoc, List.singleton_append]
    · intro hcap
      simp only [List.length_cons] at hcap
      have hlt : v.elems.length < v.cap := by omega
      have hc : (v.push_back d).cap = v.cap := by
        simp only [StdVector.push_back, if_pos hlt]
      have hl : (v.push_back d).elems.length = v.elems.length + 1 := by
        simp only [StdVector.push_back, List.length_append, List.length_singleton]
      rw [List.foldl_cons, h2 (by omega), hc]

theorem operator_index_other_derived (a : Nat) (ds : List D) (i : Nat) (h : i < ds.length) :
    (IMessageVector.other a (ds.map .derived) : IMessageVector D O).operator_index i
      = .ok (.derived (ds.get ⟨i, h⟩)) := by
  simp [IMessageVector.operator_index, List.getElem?_map, List.getElem?_eq_getElem h]

/-- Over a source of at most `INT_MAX` elements that are all `DerivedMsg` objects, the loop of
`assign` started at offset `i` appends the elements from `i` on to the local vector. -/
theorem assign_loop_all_derived (a : Nat) (ds : List D) (hn : ds.length ≤ 2147483647) :
    ∀ (fuel i : Nat) (v : StdVector D), i ≤ ds.length → ds.length - i < fuel →
      MessageVector.assign_loop fuel
        (⟨.other a (ds.map .derived), (i : Int)⟩ : Iterator D O false)
        ⟨.other a (ds.map .derived), (ds.length : Int)⟩ v
        = some (.ok ((ds.drop i).foldl StdVector.push_back v)) := by
  have hmax : INT_MAX = 2147483647 := rfl
  intro fuel
  induction fuel with
  | zero => intro i _ _ h; omega
  | succ fuel ih =>
    intro i v hin hfuel
    rcases Nat.lt_or_ge i ds.length with hlt | hge
    · have hne : Iterator.operator_ne
          (⟨.other a (ds.map .derived), (i : Int)⟩ : Iterator D O false)
          ⟨.other a (ds.map .derived), (ds.length : Int)⟩ = true := by
        rw [operator_ne_same]; simp; omega
      have hd : Iterator.deref
          (⟨.other a (ds.map .derived), (i : Int)⟩ : Iterator D O false)
          = .ok (.derived (ds.get ⟨i, hlt⟩)) := by
        rw [deref_natCast _ i (by omega), operator_index_other_derived a ds i hlt]
      have hinc : Iterator.operator_incr
          (⟨.other a (ds.map .derived), (i : Int)⟩ : Iterator D O false)
          = .ok ⟨.other a (ds.map .derived), ((i + 1 : Nat) : Int)⟩ := by
        rw [forward_incr _ (by simp only []; omega)]; simp
      have hdrop : ds.drop i = ds.get ⟨i, hlt⟩ :: ds.drop (i + 1) := by
        rw [List.get_eq_getElem]
        exact List.drop_eq_getElem_cons hlt
      rw [MessageVector.assign_loop, if_pos hne, hd]
      simp only [static_cast_DerivedMsg, hinc]
      rw [ih (i + 1) _ hlt (by omega), hdrop, List.foldl_cons]
    · have : i = ds.length := by omega
      subst this
      have hne : Iterator.operator_ne
          (⟨.other a (ds.map .derived), (ds.length : Int)⟩ : Iterator D O false)
          ⟨.other a (ds.map .derived), (ds.length : Int)⟩ = false := by
        rw [operator_ne_same]; simp
      rw [assign_loop_same fuel _ _ _ hne, List.drop_length, List.foldl_nil]

/-- The slow path of `assign` over a source of at most `INT_MAX` elements that are all
`DerivedMsg` objects: `data` becomes the vector of those elements. -/
theorem assign_slow_path [ElementType D] (S : MessageVector D O) (a : Nat) (ds : List D)
    (fuel : Nat) (hn : ds.length ≤ 2147483647) (hfuel : ds.length < fuel) :
    S.assign fuel (.other a (ds.map .derived)) = some (.ok ⟨⟨ds, ds.length⟩⟩) := by
  have hloop := assign_loop_all_derived (O := O) a ds hn fuel 0
    ⟨[], ds.length⟩ (Nat.zero_le _) (by omega)
  simp only [Nat.cast_zero, List.drop_zero] at hloop
  obtain ⟨h1, h2⟩ := foldl_push_back ds (⟨[], ds.length⟩ : StdVector D)
  have hv : (StdVector.default_ctor : StdVector D).reserve ds.length = .ok ⟨[], ds.length⟩ :=
    reserve_default _ (le_trans hn (INT_MAX_le_max_size D))
  simp only [List.nil_append, List.length_nil, zero_add] at h1
  have h3 := h2 (by simp)
  simp only [MessageVector.assign, MessageVector.dynamic_cast_MessageVector,
    IMessageVector.begin_const, IMessageVector.end_const, IMessageVector.cbegin,
    IMessageVector.cend, Iterator.ctor, IMessageVector.size, List.length_map,
    int_of_size_type_small _ hn, hv, hloop, StdVector.move_assign, h1, h3]

theorem exists_derived_list (elems : List (IMsg D O))
    (h : ∀ x ∈ elems, ∃ d, x = IMsg.derived d) : ∃ ds : List D, elems = ds.map .derived := by
  induction elems with
  | nil => exact ⟨[], rfl⟩
  | cons x xs ih =>
    obtain ⟨d, hd⟩ := h x (List.mem_cons_self _ _)
    obtain ⟨ds, hds⟩ := ih (fun y hy => h y (List.mem_cons_of_mem _ hy))
    exact ⟨d :: ds, by rw [hd, hds]; rfl⟩

/-- When `size()` converts to the `int` 0, `end()` equals `begin()` and the loop body never
runs. -/
theorem forward_loop_of_end_zero (c : IMessageVector D O) (fuel : Nat)
    (h : int_of_size_type c.size = 0) :
    forward_loop (fuel + 1) c.begin c.end_ = some (.ok []) := by
  have hne : Iterator.operator_ne (⟨c, 0⟩ : Iterator D O false) ⟨c, 0⟩ = false := by
    simp [Iterator.operator_ne, Iterator.operator_eq]
  simp only [IMessageVector.begin, IMessageVector.end_, Iterator.ctor, h]
  exact forward_loop_same fuel _ _ hne

theorem bigDerived_size : bigDerived.size = 4294967296 := by
  show (List.replicate 4294967296 (IMsg.derived (B.mk 1) : IMsg B A)).length = 4294967296
  exact List.length_replicate _ _

theorem derived_injective : Function.Injective (IMsg.derived : D → IMsg D O) := by
  intro x y h
  cases h
  rfl

theorem le_of_le_INT_MAX (n : Nat) (h : (n : Int) ≤ INT_MAX) : n ≤ 2147483647 := by
  unfold INT_MAX at h
  omega

end Loops

/-! ## Claims -/

section Claims

variable {D O : Type}

/-- C1: for every MessageVector `S` and every element whose actual type is the Derived type
(`IMsg.derived d`), both overloads of `push_back` return normally with the same new state
`S1`, in which `size()` is the old size plus one, `S1[old size]` is the pushed element (read
through either overload of `operator[]`, and seen as that same object through the interface),
and `S1[i]` is the old `i`-th element for every `i` below the old size. -/
theorem C1_push_back_appends (S : MessageVector D O) (d : D) :
    ∃ S1 : MessageVector D O,
      S.push_back (.derived d) = .ok S1 ∧
      S.push_back_rvalue (.derived d) = .ok S1 ∧
      S1.size = S.size + 1 ∧
      S1.operator_index S.size = .ok d ∧
      S1.operator_index_const S.size = .ok d ∧
      (∀ a, (IMessageVector.messageVector a S1).operator_index S.size = .ok (.derived d)) ∧
      (∀ i (h : i < S.data.elems.length),
        S1.operator_index i = .ok (S.data.elems.get ⟨i, h⟩) ∧
        S1.operator_index_const i = .ok (S.data.elems.get ⟨i, h⟩) ∧
        S.operator_index i = .ok (S.data.elems.get ⟨i, h⟩)) := by
  refine ⟨⟨S.data.push_back d⟩, rfl, rfl, ?_, ?_, ?_, ?_, ?_⟩
  · simp [MessageVector.size, StdVector.size, StdVector.push_back]
  · simp [MessageVector.operator_index, MessageVector.size, StdVector.size,
      StdVector.subscript, StdVector.push_back]
  · simp [MessageVector.operator_index_const, MessageVector.size, StdVector.size,
      StdVector.subscript, StdVector.push_back]
  · intro a
    simp [IMessageVector.operator_index, MessageVector.operator_index_const,
      MessageVector.size, StdVector.size, StdVector.subscript, StdVector.push_back,
      Outcome.map, upcast]
  · intro i h
    have h1 : (S.data.elems ++ [d])[i]? = some (S.data.elems.get ⟨i, h⟩) := by
      rw [List.getElem?_append_left h]
      exact List.getElem?_eq_getElem h
    refine ⟨?_, ?_, subscript_lt S.data i h⟩
    · simp [MessageVector.operator_index, StdVector.subscript, StdVector.push_back, h1]
    · simp [MessageVector.operator_index_const, StdVector.subscript, StdVector.push_back, h1]

/-- C4 (as stated, refuted): in a MessageVector holding one element, `operator[](1)` has
`1 >= size()`, yet neither overload leaves by an exception: there is no error of any kind,
the access is simply outside the array. -/
theorem C4_counterexample :
    (vecAB [7]).size ≤ 1 ∧
    (¬ ∃ e, (vecAB [7]).operator_index 1 = Outcome.throw e) ∧
    (¬ ∃ e, (vecAB [7]).operator_index_const 1 = Outcome.throw e) := by
  have h1 : (vecAB [7]).operator_index 1 = Outcome.undefined := by decide
  have h2 : (vecAB [7]).operator_index_const 1 = Outcome.undefined := by decide
  refine ⟨by decide, ?_, ?_⟩
  · rintro ⟨e, h⟩
    rw [h1] at h
    cases h
  · rintro ⟨e, h⟩
    rw [h2] at h
    cases h

/-- C4 (amended): for every MessageVector `S` and every `idx >= S.size()`, the mutable and the
read-only `operator[]` index the array without a bounds check: the behaviour is undefined, so
no element is returned and no exception is raised. -/
theorem C4_index_out_of_range_undefined (S : MessageVector D O) (idx : Nat)
    (h : S.size ≤ idx) :
    S.operator_index idx = .undefined ∧ S.operator_index_const idx = .undefined :=
  ⟨subscript_ge S.data idx h, subscript_ge S.data idx h⟩

/-- C4 (amended), at the vector `[7]` and index 3. -/
theorem C4_index_out_of_range_undefined_witness :
    (vecAB [7]).size ≤ 3 ∧
    (vecAB [7]).operator_index 3 = .undefined ∧
    (vecAB [7]).operator_index_const 3 = .undefined :=
  ⟨by decide, C4_index_out_of_range_undefined (vecAB [7]) 3 (by decide)⟩

/-- C5 (the code at the failing input): over the values `[1, 2, 3]` the forward visit from
`begin()` yields 1, 2, 3.  A reverse iterator at offset 2 yields 3, then `++` moves it to
offset 3, where the dereference is outside the array: the visit of three elements is undefined
instead of yielding 3, 2, 1. -/
theorem C5_reverse_visit_at_123 :
    visit 3 (IMessageVector.begin (.messageVector 0 (vecAB [1, 2, 3])))
      = .ok [.derived ⟨1⟩, .derived ⟨2⟩, .derived ⟨3⟩] ∧
    (Iterator.ctor (.messageVector 0 (vecAB [1, 2, 3])) 2 : Iterator B A true).deref
      = .ok (.derived ⟨3⟩) ∧
    ((Iterator.ctor (.messageVector 0 (vecAB [1, 2, 3])) 2 : Iterator B A true).operator_incr).map
      (fun it => it.index) = .ok 3 ∧
    (Iterator.ctor (.messageVector 0 (vecAB [1, 2, 3])) 3 : Iterator B A true).deref
      = .undefined ∧
    visit 3 (Iterator.ctor (.messageVector 0 (vecAB [1, 2, 3])) 2 : Iterator B A true)
      = .undefined := by
  refine ⟨rfl, rfl, rfl, rfl, rfl⟩

/-- C6 (the code at the failing inputs): a forward iterator at offset 0 is at offset 1 after
`+= 2` (not 2); a reverse iterator at offset 2 is at offset 3 after `+= 1` (not 1); a forward
iterator at offset 2 is at offset 3 after `-= 1` (not 1). -/
theorem C6_add_assign_at_concrete :
    ((Iterator.ctor (.messageVector 0 (vecAB [1, 2, 3])) 0 : Iterator B A false).operator_add_assign 2).map
      (fun it => it.index) = .ok 1 ∧
    ((Iterator.ctor (.messageVector 0 (vecAB [1, 2, 3])) 2 : Iterator B A true).operator_add_assign 1).map
      (fun it => it.index) = .ok 3 ∧
    ((Iterator.ctor (.messageVector 0 (vecAB [1, 2, 3])) 2 : Iterator B A false).operator_sub_assign 1).map
      (fun it => it.index) = .ok 3 := by
  refine ⟨rfl, rfl, rfl⟩

/-- C7: for two distinct MessageVector objects `A` (at address `a`) and `B` (at address `b`,
with any prior contents), `B.assign(A)` returns normally; afterwards `B` has the size of `A` and
`B[i]` equals `A[i]` for every `i` below it, `A` is unchanged, and a following `push_back` or
`clear` on `B` changes `B` and leaves `A` unchanged. -/
theorem C7_assign_same_type [ElementType D] (σ : Store D O) (a b : Nat)
    (A B : MessageVector D O) (fuel : Nat)
    (hab : a ≠ b) (hA : σ a = some A) (hB : σ b = some B) :
    ∃ (σ1 : Store D O) (B1 : MessageVector D O),
      B.assign fuel (.messageVector a A) = some (.ok B1) ∧
      σ.call_assign fuel b a = some (.ok σ1) ∧ σ1 b = some B1 ∧ σ1 a = some A ∧
      B1.size = A.size ∧
      (∀ i, i < A.size → ∃ x, A.operator_index i = .ok x ∧ B1.operator_index i = .ok x ∧
        B1.operator_index_const i = .ok x) ∧
      (∀ d, ∃ σ2, σ1.call_push_back b (.derived d) = .ok σ2 ∧ σ2 a = some A ∧
        ∃ B2, σ2 b = some B2 ∧ B2.size = B1.size + 1) ∧
      (∃ σ3, σ1.call_clear b = .ok σ3 ∧ σ3 a = some A ∧ ∃ B3, σ3 b = some B3 ∧ B3.size = 0) := by
  have hassign : B.assign fuel (.messageVector a A)
      = some (.ok ⟨B.data.copy_assign A.data⟩) := rfl
  refine ⟨σ.update b ⟨B.data.copy_assign A.data⟩, ⟨B.data.copy_assign A.data⟩, hassign, ?_,
    store_update_same _ _ _, ?_, rfl, ?_, ?_, ?_⟩
  · simp [Store.call_assign, hA, hB, hassign]
  · rw [store_update_other _ _ _ _ hab, hA]
  · intro i hi
    have h1 : i < A.data.elems.length := hi
    exact ⟨A.data.elems.get ⟨i, h1⟩, subscript_lt A.data i h1,
      subscript_lt (B.data.copy_assign A.data) i h1, subscript_lt (B.data.copy_assign A.data) i h1⟩
  · intro d
    refine ⟨(σ.update b ⟨B.data.copy_assign A.data⟩).update b
      ⟨(B.data.copy_assign A.data).push_back d⟩, ?_, ?_, _, store_update_same _ _ _, ?_⟩
    · simp [Store.call_push_back, store_update_same, MessageVector.push_back,
        static_cast_DerivedMsg, Outcome.bind, Outcome.map]
    · rw [store_update_other _ _ _ _ hab, store_update_other _ _ _ _ hab, hA]
    · simp [MessageVector.size, StdVector.size, StdVector.push_back]
  · refine ⟨(σ.update b ⟨B.data.copy_assign A.data⟩).update b
      (MessageVector.clear ⟨B.data.copy_assign A.data⟩), ?_, ?_, _, store_update_same _ _ _, rfl⟩
    · simp [Store.call_clear, store_update_same]
    · rw [store_update_other _ _ _ _ hab, store_update_other _ _ _ _ hab, hA]

/-- C7, at `A = [10, 20, 30]` and an empty `B`. -/
theorem C7_assign_same_type_witness :
    ∃ (σ1 : Store B A) (B1 : MessageVector B A),
      (MessageVector.default_ctor : MessageVector B A).assign 0
        (.messageVector 1 (vecAB [10, 20, 30])) = some (.ok B1) ∧
      store12.call_assign 0 2 1 = some (.ok σ1) ∧ σ1 2 = some B1 ∧
      σ1 1 = some (vecAB [10, 20, 30]) ∧
      B1.size = (vecAB [10, 20, 30]).size ∧
      (∀ i, i < (vecAB [10, 20, 30]).size → ∃ x, (vecAB [10, 20, 30]).operator_index i = .ok x ∧
        B1.operator_index i = .ok x ∧ B1.operator_index_const i = .ok x) ∧
      (∀ d, ∃ σ2, σ1.call_push_back 2 (.derived d) = .ok σ2 ∧
        σ2 1 = some (vecAB [10, 20, 30]) ∧ ∃ B2, σ2 2 = some B2 ∧ B2.size = B1.size + 1) ∧
      (∃ σ3, σ1.call_clear 2 = .ok σ3 ∧ σ3 1 = some (vecAB [10, 20, 30]) ∧
        ∃ B3, σ3 2 = some B3 ∧ B3.size = 0) :=
  C7_assign_same_type store12 1 2 (vecAB [10, 20, 30]) MessageVector.default_ctor 0
    (by decide) rfl rfl

/-- C8 (as stated, refuted): `B = [1, 2]` is assigned from a source holding a `B` object and
an `A` object: the call does not leave by an exception, the unchecked cast of the `A` object is
undefined.  Assigned from a source of 2^32 `A` objects, the call returns normally and `B` is
left empty. -/
theorem C8_counterexample :
    mixedSource.operator_index 1 = .ok (.other ⟨4⟩) ∧
    (¬ ∃ e, (vecAB [1, 2]).assign 3 mixedSource = some (Outcome.throw e)) ∧
    bigOther.operator_index 0 = .ok (.other ⟨1⟩) ∧
    (vecAB [1, 2]).assign 4294967297 bigOther = some (.ok ⟨⟨[], 4294967296⟩⟩) := by
  have h1 : (vecAB [1, 2]).assign 3 mixedSource = some Outcome.undefined := rfl
  refine ⟨rfl, ?_, ?_, ?_⟩
  · rintro ⟨e, h⟩
    rw [h1] at h
    cases h
  · exact operator_index_other_replicate 0 4294967296 0 (.other (A.mk 1)) (by decide)
  · have h2 := assign_of_end_zero (vecAB [1, 2]) 0
      (List.replicate 4294967296 (IMsg.other (A.mk 1) : IMsg B A)) 4294967296
      (by rw [List.length_replicate]; decide) (by rw [List.length_replicate]; decide)
    rw [List.length_replicate] at h2
    exact h2

/-- C8 (amended): for every MessageVector `B` and every source sequence with
`size() <= INT_MAX` that holds at least one element whose actual type is not the Derived type,
`B.assign(source)` narrows the elements with the unchecked `static_cast`: the behaviour is
undefined at the first such element and no exception is raised (given fuel above `size()`). -/
theorem C8_assign_other_undefined [ElementType D] (S : MessageVector D O)
    (rhs : IMessageVector D O) (fuel : Nat) (hsize : (rhs.size : Int) ≤ INT_MAX) (hfuel : rhs.size < fuel)
    (h : ∃ i o, rhs.operator_index i = .ok (.other o)) :
    S.assign fuel rhs = some .undefined := by
  have hs : rhs.size ≤ 2147483647 := le_of_le_INT_MAX _ hsize
  obtain ⟨k, o, ho, hb⟩ := exists_first_other rhs h
  have hk : k < rhs.size := lt_size_of_operator_index_ok rhs k _ ho
  cases rhs with
  | messageVector a T =>
    exfalso
    have h1 : k < T.data.elems.length := hk
    simp [IMessageVector.operator_index, MessageVector.operator_index_const,
      subscript_lt T.data k h1, Outcome.map, upcast] at ho
  | other a elems =>
    have hloop := assign_loop_hits_other (IMessageVector.other a elems)
      ((IMessageVector.other a elems).size : Int) k o (by omega)
      (by show ((IMessageVector.other a elems).size : Int) ≤ 2147483647; omega) ho fuel 0
      ⟨[], (IMessageVector.other a elems).size⟩
      (Nat.zero_le k) (by omega) (fun j _ hj => hb j hj)
    simp only [Nat.cast_zero] at hloop
    simp only [MessageVector.assign, MessageVector.dynamic_cast_MessageVector,
      IMessageVector.begin_const, IMessageVector.end_const, IMessageVector.cbegin,
      IMessageVector.cend, Iterator.ctor, int_of_size_type_small _ hs,
      reserve_default _ (le_trans hs (INT_MAX_le_max_size D)), hloop]

/-- C8 (amended), at `B = [1, 2]` and a source holding a `B` object and an `A` object. -/
theorem C8_assign_other_undefined_witness :
    (mixedSource.size : Int) ≤ INT_MAX ∧ mixedSource.size < 3 ∧
    mixedSource.operator_index 1 = .ok (.other ⟨4⟩) ∧
    (vecAB [1, 2]).assign 3 mixedSource = some .undefined :=
  ⟨by decide, by decide, rfl,
    C8_assign_other_undefined (vecAB [1, 2]) mixedSource 3 (by decide) (by decide)
      ⟨1, ⟨4⟩, rfl⟩⟩

/-- C9 (as stated, refuted): pushing an object whose dynamic type is `A`, not `B`, into a
`MessageVector<A, B>` does not leave by an exception, with either overload. -/
theorem C9_counterexample :
    (¬ ∃ e, (vecAB [1]).push_back (.other ⟨2⟩) = Outcome.throw e) ∧
    (¬ ∃ e, (vecAB [1]).push_back_rvalue (.other ⟨2⟩) = Outcome.throw e) := by
  have h1 : (vecAB [1]).push_back (.other ⟨2⟩) = Outcome.undefined := rfl
  have h2 : (vecAB [1]).push_back_rvalue (.other ⟨2⟩) = Outcome.undefined := rfl
  constructor
  · rintro ⟨e, h⟩
    rw [h1] at h
    cases h
  · rintro ⟨e, h⟩
    rw [h2] at h
    cases h

/-- C9 (amended): for every MessageVector `S` and every value `x` whose actual type is not the
Derived type (`IMsg.other o`), both overloads of `push_back` apply the unchecked `static_cast`:
the behaviour is undefined and no exception is raised. -/
theorem C9_push_back_other_undefined (S : MessageVector D O) (o : O) :
    S.push_back (.other o) = .undefined ∧ S.push_back_rvalue (.other o) = .undefined :=
  ⟨rfl, rfl⟩

/-- C10: for every MessageVector `S`, `size()` is 0 after `clear()`, and `empty()` is true
exactly when `size()` is 0. -/
theorem C10_clear_and_empty (S : MessageVector D O) :
    S.clear.size = 0 ∧ (S.empty = true ↔ S.size = 0) := by
  constructor
  · rfl
  · simp [MessageVector.empty, MessageVector.size, StdVector.empty, StdVector.size,
      List.isEmpty_iff]

/-- C11 (as stated, refuted): `reserve(2^64 - 1)` on the vector `[1, 2]` asks for more than
`max_size()`; the call throws `std::length_error`, and the capacity of the vector, which stays
as it was, is 2, below the requested number. -/
theorem C11_counterexample :
    (vecAB [1, 2]).reserve 18446744073709551615 = .throw .length_error ∧
    (vecAB [1, 2]).capacity = 2 ∧
    ¬ (18446744073709551615 ≤ (vecAB [1, 2]).capacity) := by
  refine ⟨?_, rfl, by decide⟩
  have h : StdVector.max_size B < 18446744073709551615 := by decide
  simp only [MessageVector.reserve, reserve_of_gt _ _ h, Outcome.map]

/-- C11 (amended): for every MessageVector `S` and every `n <= max_size()`, `S.reserve(n)`
returns normally; afterwards the capacity is at least `n`, `size()` is unchanged, the elements
are the same in the same order, and `S[i]` (either overload) is unchanged for every `i`. -/
theorem C11_reserve_frame [ElementType D] (S : MessageVector D O) (n : Nat)
    (hn : n ≤ StdVector.max_size D) :
    ∃ S1 : MessageVector D O,
      S.reserve n = .ok S1 ∧
      n ≤ S1.capacity ∧
      S1.size = S.size ∧
      S1.data.elems = S.data.elems ∧
      (∀ i, S1.operator_index i = S.operator_index i ∧
        S1.operator_index_const i = S.operator_index_const i) := by
  have helems : (if S.data.cap < n then (⟨S.data.elems, n⟩ : StdVector D) else S.data).elems
      = S.data.elems := by
    split <;> rfl
  refine ⟨⟨if S.data.cap < n then ⟨S.data.elems, n⟩ else S.data⟩, ?_, ?_, ?_, helems, ?_⟩
  · simp only [MessageVector.reserve, reserve_of_le _ n hn, Outcome.map]
  · by_cases h : S.data.cap < n
    · simp [MessageVector.capacity, StdVector.capacity, h]
    · simp only [MessageVector.capacity, StdVector.capacity, if_neg h]
      omega
  · simp only [MessageVector.size, StdVector.size, helems]
  · intro i
    simp only [MessageVector.operator_index, MessageVector.operator_index_const,
      StdVector.subscript, helems, and_self]

/-- C11 (amended), at the vector `[1, 2]` and `n = 10`. -/
theorem C11_reserve_frame_witness :
    10 ≤ StdVector.max_size B ∧
    ∃ S1 : MessageVector B A,
      (vecAB [1, 2]).reserve 10 = .ok S1 ∧
      10 ≤ S1.capacity ∧
      S1.size = (vecAB [1, 2]).size ∧
      S1.data.elems = (vecAB [1, 2]).data.elems ∧
      (∀ i, S1.operator_index i = (vecAB [1, 2]).operator_index i ∧
        S1.operator_index_const i = (vecAB [1, 2]).operator_index_const i) :=
  ⟨by decide, C11_reserve_frame (vecAB [1, 2]) 10 (by decide)⟩

/-- C12: for every two iterators `a` and `b` of the same iterator type, `a == b` is true if and
only if they point to the same sequence instance (equal addresses) and have equal offsets,
`a != b` is its negation, and when they point to different instances `a == b` returns false
and `a != b` returns true, whatever the offsets. -/
theorem C12_iterator_equality (r : Bool) (a b : Iterator D O r) :
    (a.operator_eq b = true ↔ a.vp.addr = b.vp.addr ∧ a.index = b.index) ∧
    a.operator_ne b = !(a.operator_eq b) ∧
    (a.vp.addr ≠ b.vp.addr → a.operator_eq b = false ∧ a.operator_ne b = true) := by
  refine ⟨?_, rfl, ?_⟩
  · unfold Iterator.operator_eq
    by_cases h : a.vp.addr = b.vp.addr <;> simp [h]
  · intro h
    simp [Iterator.operator_ne, Iterator.operator_eq, h]

/-- C13: `capacity() >= size()` holds after each constructor (default, from a vector by
reference, from a vector by rvalue reference); and for every MessageVector `S` in which it
holds, it holds again in the state left by `push_back` (either overload, which returns for
every Derived element), by `clear`, by `reserve` and by `assign` (which returns for every
source of the same concrete type). -/
theorem C13_capacity_ge_size [ElementType D] (S : MessageVector D O)
    (hS : S.size ≤ S.capacity) :
    (MessageVector.default_ctor : MessageVector D O).size
      ≤ (MessageVector.default_ctor : MessageVector D O).capacity ∧
    (∀ v : StdVector D,
      (MessageVector.from_vector v : MessageVector D O).size
        ≤ (MessageVector.from_vector v : MessageVector D O).capacity ∧
      (MessageVector.from_vector_rvalue v : MessageVector D O).size
        ≤ (MessageVector.from_vector_rvalue v : MessageVector D O).capacity) ∧
    (∀ x S1, (S.push_back x = .ok S1 ∨ S.push_back_rvalue x = .ok S1) →
      S1.size ≤ S1.capacity) ∧
    (∀ d, ∃ S1, S.push_back (.derived d) = .ok S1 ∧ S.push_back_rvalue (.derived d) = .ok S1 ∧
      S1.size ≤ S1.capacity) ∧
    S.clear.size ≤ S.clear.capacity ∧
    (∀ n S1, S.reserve n = .ok S1 → S1.size ≤ S1.capacity) ∧
    (∀ n, n ≤ StdVector.max_size D → ∃ S1, S.reserve n = .ok S1 ∧ S1.size ≤ S1.capacity) ∧
    (∀ n, StdVector.max_size D < n → S.reserve n = .throw .length_error) ∧
    (∀ fuel rhs S1, S.assign fuel rhs = some (.ok S1) → S1.size ≤ S1.capacity) ∧
    (∀ fuel a T, ∃ S1, S.assign fuel (.messageVector a T) = some (.ok S1) ∧
      S1.size ≤ S1.capacity) := by
  have hS1 : S.data.elems.length ≤ S.data.cap := hS
  have hfast : ∀ T : MessageVector D O,
      (S.data.copy_assign T.data).elems.length ≤ (S.data.copy_assign T.data).cap := by
    intro T
    simp only [StdVector.copy_assign]
    split <;> omega
  have hpush : ∀ x S1, S.push_back x = .ok S1 → S1.size ≤ S1.capacity := by
    intro x S1 h
    cases x with
    | derived d =>
      simp only [MessageVector.push_back, static_cast_DerivedMsg, Outcome.bind,
        Outcome.ok.injEq] at h
      subst h
      exact push_back_capacity S.data d
    | other o =>
      simp [MessageVector.push_back, static_cast_DerivedMsg, Outcome.bind] at h
  have hres : ∀ n S1, S.reserve n = .ok S1 → S1.size ≤ S1.capacity := by
    intro n S1 h
    unfold MessageVector.reserve at h
    cases hr : S.data.reserve n with
    | ok w =>
      rw [hr] at h
      simp only [Outcome.map, Outcome.ok.injEq] at h
      subst h
      exact reserve_capacity S.data w n hr hS1
    | throw e =>
      rw [hr] at h
      simp [Outcome.map] at h
    | undefined =>
      rw [hr] at h
      simp [Outcome.map] at h
  refine ⟨le_rfl, fun v => ⟨le_rfl, le_rfl⟩, ?_, ?_, ?_, hres, ?_, ?_, ?_, ?_⟩
  · rintro x S1 (h | h)
    · exact hpush x S1 h
    · exact hpush x S1 h
  · intro d
    exact ⟨⟨S.data.push_back d⟩, rfl, rfl, push_back_capacity S.data d⟩
  · exact Nat.zero_le _
  · intro n hn
    have h : S.reserve n = .ok ⟨if S.data.cap < n then ⟨S.data.elems, n⟩ else S.data⟩ := by
      simp only [MessageVector.reserve, reserve_of_le _ n hn, Outcome.map]
    exact ⟨_, h, hres n _ h⟩
  · intro n hn
    simp only [MessageVector.reserve, reserve_of_gt _ n hn, Outcome.map]
  · intro fuel rhs S1 h
    cases rhs with
    | messageVector a T =>
      simp only [MessageVector.assign, MessageVector.dynamic_cast_MessageVector,
        Option.some.injEq, Outcome.ok.injEq] at h
      subst h
      exact hfast T
    | other a elems =>
      simp only [MessageVector.assign, MessageVector.dynamic_cast_MessageVector] at h
      split at h
      · rename_i v hv
        split at h
        · simp at h
        · rename_i w hloop
          simp only [Option.some.injEq, Outcome.ok.injEq] at h
          subst h
          exact assign_loop_capacity fuel _ _ _ w hloop
            (reserve_capacity _ v _ hv (Nat.zero_le _))
        · simp at h
        · simp at h
      · simp at h
      · simp at h
  · intro fuel a T
    exact ⟨⟨S.data.copy_assign T.data⟩, rfl, hfast T⟩

/-- C13, at the vector `[1, 2]`. -/
theorem C13_capacity_ge_size_witness :
    (vecAB [1, 2]).size ≤ (vecAB [1, 2]).capacity ∧
    (∀ d, ∃ S1, (vecAB [1, 2]).push_back (.derived d) = .ok S1 ∧
      (vecAB [1, 2]).push_back_rvalue (.derived d) = .ok S1 ∧ S1.size ≤ S1.capacity) ∧
    (vecAB [1, 2]).clear.size ≤ (vecAB [1, 2]).clear.capacity ∧
    (∀ n S1, (vecAB [1, 2]).reserve n = .ok S1 → S1.size ≤ S1.capacity) :=
  ⟨by decide, (C13_capacity_ge_size (vecAB [1, 2]) (by decide)).2.2.2.1,
    (C13_capacity_ge_size (vecAB [1, 2]) (by decide)).2.2.2.2.1,
    (C13_capacity_ge_size (vecAB [1, 2]) (by decide)).2.2.2.2.2.1⟩

/-- C14 (as stated, refuted): in a `MessageVector<A, B>` of 2^32 elements `size()` is 2^32
and the `int` offset of `end()` and of `cend()` is 0. -/
theorem C14_counterexample :
    (IMessageVector.messageVector 0 bigVec).size = 4294967296 ∧
    (IMessageVector.messageVector 0 bigVec).end_.index = 0 ∧
    (IMessageVector.messageVector 0 bigVec).cend.index = 0 := by
  refine ⟨big_size, ?_, ?_⟩
  · simp only [IMessageVector.end_, Iterator.ctor, big_size]
    decide
  · simp only [IMessageVector.cend, Iterator.ctor, big_size]
    decide

/-- C14 (amended): for every sequence `S`, `begin()` and `cbegin()` return iterators on `S`
with offset 0, and `end()` and `cend()` return iterators on `S` whose `int` offset is `size()`
converted to `int`; that offset equals `size()` exactly when `size() <= INT_MAX`. -/
theorem C14_begin_end_offsets (c : IMessageVector D O) :
    c.begin.vp = c ∧ c.begin.index = 0 ∧
    c.cbegin.vp = c ∧ c.cbegin.index = 0 ∧
    c.end_.vp = c ∧ c.end_.index = int_of_size_type c.size ∧
    c.cend.vp = c ∧ c.cend.index = int_of_size_type c.size ∧
    (c.end_.index = (c.size : Int) ↔ (c.size : Int) ≤ INT_MAX) ∧
    (c.cend.index = (c.size : Int) ↔ (c.size : Int) ≤ INT_MAX) :=
  ⟨rfl, rfl, rfl, rfl, rfl, rfl, rfl, rfl, int_of_size_type_eq_iff c.size,
    int_of_size_type_eq_iff c.size⟩

/-- C15 (as stated, refuted): a source of another implementation holds 2^32 elements, all of
them `B` objects; `assign` takes the slow path, `size()` converts to the `int` end offset 0, the
loop copies nothing, and the target is left with size 0 instead of 2^32. -/
theorem C15_counterexample :
    (∀ x ∈ List.replicate 4294967296 (IMsg.derived (B.mk 1) : IMsg B A),
      ∃ d, x = IMsg.derived d) ∧
    bigDerived.size = 4294967296 ∧
    (vecAB [1, 2]).assign 4294967297 bigDerived = some (.ok ⟨⟨[], 4294967296⟩⟩) ∧
    (⟨⟨[], 4294967296⟩⟩ : MessageVector B A).size = 0 := by
  refine ⟨?_, bigDerived_size, ?_, rfl⟩
  · intro x hx
    exact ⟨B.mk 1, (List.mem_replicate.mp hx).2⟩
  · have h2 := assign_of_end_zero (vecAB [1, 2]) 0
      (List.replicate 4294967296 (IMsg.derived (B.mk 1) : IMsg B A)) 4294967296
      (by rw [List.length_replicate]; decide) (by rw [List.length_replicate]; decide)
    rw [List.length_replicate] at h2
    exact h2

/-- C15 (amended): for every source sequence that is not of the same concrete MessageVector
type, has `size() <= INT_MAX`, and whose elements are all actually DerivedMsg values,
`B.assign(source)` returns normally (given fuel above `size()`); afterwards `B` has size
`source.size()` and `B[i]` is the narrowing of `source[i]` for every `i` below it, in the same
order: the same elements as the fast path leaves when it copies an array holding them. -/
theorem C15_assign_slow_path_agrees [ElementType D] (S : MessageVector D O) (a : Nat)
    (elems : List (IMsg D O)) (fuel : Nat)
    (hall : ∀ x ∈ elems, ∃ d, x = IMsg.derived d)
    (hsize : ((IMessageVector.other a elems).size : Int) ≤ INT_MAX)
    (hfuel : (IMessageVector.other a elems).size < fuel) :
    ∃ S1 : MessageVector D O,
      S.assign fuel (.other a elems) = some (.ok S1) ∧
      S1.size = (IMessageVector.other a elems).size ∧
      (∀ i, i < S1.size → ∃ d,
        (IMessageVector.other a elems).operator_index i = .ok (.derived d) ∧
        static_cast_DerivedMsg (IMsg.derived d : IMsg D O) = .ok d ∧
        S1.operator_index i = .ok d ∧ S1.operator_index_const i = .ok d) ∧
      (∀ (a2 : Nat) (T : MessageVector D O), T.data.elems.map IMsg.derived = elems →
        ∃ S2, S.assign fuel (.messageVector a2 T) = some (.ok S2) ∧
          S2.data.elems = S1.data.elems) := by
  obtain ⟨ds, hds⟩ := exists_derived_list elems hall
  subst hds
  have hlen : (IMessageVector.other a (ds.map IMsg.derived) : IMessageVector D O).size
      = ds.length := by
    simp [IMessageVector.size]
  rw [hlen] at hsize hfuel
  have hn : ds.length ≤ 2147483647 := le_of_le_INT_MAX _ hsize
  refine ⟨⟨⟨ds, ds.length⟩⟩, assign_slow_path S a ds fuel hn hfuel, hlen.symm, ?_, ?_⟩
  · intro i hi
    have hi1 : i < ds.length := hi
    exact ⟨ds.get ⟨i, hi1⟩, operator_index_other_derived a ds i hi1, rfl,
      subscript_lt ⟨ds, ds.length⟩ i hi1, subscript_lt ⟨ds, ds.length⟩ i hi1⟩
  · intro a2 T hT
    have hT1 : T.data.elems = ds := List.map_injective_iff.mpr derived_injective hT
    exact ⟨⟨S.data.copy_assign T.data⟩, rfl, hT1⟩

/-- C15 (amended), at `B = [9]` and a source of another implementation holding two `B`
objects of values 3 and 4. -/
theorem C15_assign_slow_path_agrees_witness :
    ∃ S1 : MessageVector B A,
      (vecAB [9]).assign 3 (.other 7 [.derived ⟨3⟩, .derived ⟨4⟩]) = some (.ok S1) ∧
      S1.size = (IMessageVector.other 7 [.derived ⟨3⟩, .derived ⟨4⟩] : IMessageVector B A).size ∧
      (∀ i, i < S1.size → ∃ d,
        (IMessageVector.other 7 [.derived ⟨3⟩, .derived ⟨4⟩] : IMessageVector B A).operator_index i
          = .ok (.derived d) ∧
        static_cast_DerivedMsg (IMsg.derived d : IMsg B A) = .ok d ∧
        S1.operator_index i = .ok d ∧ S1.operator_index_const i = .ok d) ∧
      (∀ (a2 : Nat) (T : MessageVector B A),
        T.data.elems.map IMsg.derived = ([.derived ⟨3⟩, .derived ⟨4⟩] : List (IMsg B A)) →
        ∃ S2, (vecAB [9]).assign 3 (.messageVector a2 T) = some (.ok S2) ∧
          S2.data.elems = S1.data.elems) :=
  C15_assign_slow_path_agrees (vecAB [9]) 7 [.derived ⟨3⟩, .derived ⟨4⟩] 3
    (by
      intro x hx
      simp only [List.mem_cons, List.mem_singleton, List.not_mem_nil, or_false] at hx
      rcases hx with rfl | rfl
      · exact ⟨⟨3⟩, rfl⟩
      · exact ⟨⟨4⟩, rfl⟩)
    (by decide) (by decide)

/-- C16 (as stated, refuted): on an iterator at offset `INT_MAX` the step `++` overflows the
`int` and yields no iterator; on a reverse iterator at offset 0, `+= INT_MIN` negates `INT_MIN`
and yields no iterator; on a forward iterator at offset 0, `-= INT_MIN` does the same. -/
theorem C16_counterexample :
    (¬ ∃ it1, (Iterator.ctor (.messageVector 0 (vecAB [1, 2, 3])) INT_MAX :
      Iterator B A false).operator_incr = Outcome.ok it1) ∧
    (¬ ∃ it1, (Iterator.ctor (.messageVector 0 (vecAB [1, 2, 3])) 0 :
      Iterator B A true).operator_add_assign INT_MIN = Outcome.ok it1) ∧
    (¬ ∃ it1, (Iterator.ctor (.messageVector 0 (vecAB [1, 2, 3])) 0 :
      Iterator B A false).operator_sub_assign INT_MIN = Outcome.ok it1) := by
  have h1 : (Iterator.ctor (.messageVector 0 (vecAB [1, 2, 3])) INT_MAX :
      Iterator B A false).operator_incr = Outcome.undefined := rfl
  have h2 : (Iterator.ctor (.messageVector 0 (vecAB [1, 2, 3])) 0 :
      Iterator B A true).operator_add_assign INT_MIN = Outcome.undefined := rfl
  have h3 : (Iterator.ctor (.messageVector 0 (vecAB [1, 2, 3])) 0 :
      Iterator B A false).operator_sub_assign INT_MIN = Outcome.undefined := rfl
  refine ⟨?_, ?_, ?_⟩
  · rintro ⟨it1, h⟩
    rw [h1] at h
    cases h
  · rintro ⟨it1, h⟩
    rw [h2] at h
    cases h
  · rintro ⟨it1, h⟩
    rw [h3] at h
    cases h

/-- C16 (amended): on every iterator, forward or reverse, whose offset is not `INT_MAX`, each
step operation (`+= delta` and `-= delta` for every `int` delta other than `INT_MIN`, `++`,
`--`) increases the offset by exactly 1 and leaves the referenced sequence unchanged, whatever
the sign and magnitude of delta and whatever the reverse flag; on a forward iterator `+=`
does so for `INT_MIN` too. -/
theorem C16_step_adds_one (r : Bool) (it : Iterator D O r) (delta : Int)
    (hidx : it.index ≠ INT_MAX) (hlo : INT_MIN < delta) (hhi : delta ≤ INT_MAX) :
    it.operator_add_assign delta = .ok ⟨it.vp, it.index + 1⟩ ∧
    it.operator_sub_assign delta = .ok ⟨it.vp, it.index + 1⟩ ∧
    it.operator_incr = .ok ⟨it.vp, it.index + 1⟩ ∧
    it.operator_decr = .ok ⟨it.vp, it.index + 1⟩ ∧
    (r = false → it.operator_add_assign INT_MIN = .ok ⟨it.vp, it.index + 1⟩) := by
  have hmin : INT_MIN = -2147483648 := rfl
  have hmax : INT_MAX = 2147483647 := rfl
  have hsub : ∀ d : Int, INT_MIN < d → d ≤ INT_MAX →
      it.operator_sub_assign d = .ok ⟨it.vp, it.index + 1⟩ := by
    intro d h1 h2
    have hd : d ≠ INT_MIN := by omega
    simp only [Iterator.operator_sub_assign, int_negate, if_neg hd, Outcome.bind]
    exact add_assign_step it (-d) hidx (fun _ => by omega)
  refine ⟨add_assign_step it delta hidx (fun _ => by omega), hsub delta hlo hhi,
    add_assign_step it 1 hidx (fun _ => by decide), ?_, ?_⟩
  · exact hsub 1 (by decide) (by decide)
  · intro hr
    exact add_assign_step it INT_MIN hidx (fun h => by rw [hr] at h; cases h)

/-- C16 (amended), at a reverse iterator at offset 2 and delta = -5. -/
theorem C16_step_adds_one_witness :
    (Iterator.ctor (.messageVector 0 (vecAB [1, 2, 3])) 2 : Iterator B A true).operator_add_assign (-5)
      = .ok ⟨.messageVector 0 (vecAB [1, 2, 3]), 2 + 1⟩ ∧
    (Iterator.ctor (.messageVector 0 (vecAB [1, 2, 3])) 2 : Iterator B A true).operator_sub_assign (-5)
      = .ok ⟨.messageVector 0 (vecAB [1, 2, 3]), 2 + 1⟩ ∧
    (Iterator.ctor (.messageVector 0 (vecAB [1, 2, 3])) 2 : Iterator B A true).operator_incr
      = .ok ⟨.messageVector 0 (vecAB [1, 2, 3]), 2 + 1⟩ ∧
    (Iterator.ctor (.messageVector 0 (vecAB [1, 2, 3])) 2 : Iterator B A true).operator_decr
      = .ok ⟨.messageVector 0 (vecAB [1, 2, 3]), 2 + 1⟩ :=
  have h := C16_step_adds_one true
    (Iterator.ctor (.messageVector 0 (vecAB [1, 2, 3])) 2 : Iterator B A true) (-5)
    (by decide) (by decide) (by decide)
  ⟨h.1, h.2.1, h.2.2.1, h.2.2.2.1⟩

/-- C17 (as stated, refuted): over a `MessageVector<A, B>` of 2^32 elements the loop
`for (it = S.begin(); it != S.end(); ++it)` ends after no iteration at all: `end()` has the
`int` offset 0, equal to `begin()`. -/
theorem C17_counterexample :
    (IMessageVector.messageVector 0 bigVec).size = 4294967296 ∧
    forward_loop 4294967297 (IMessageVector.messageVector 0 bigVec).begin
      (IMessageVector.messageVector 0 bigVec).end_ = some (.ok []) := by
  refine ⟨big_size, ?_⟩
  exact forward_loop_of_end_zero _ 4294967296 (by rw [big_size]; decide)

/-- C17 (amended): for every sequence `S` of size `n <= INT_MAX` (including `n = 0`), the loop
`for (it = S.begin(); it != S.end(); ++it)` terminates after exactly `n` iterations (given fuel
above `n`), the `k`-th dereference `*it` is at offset `k` and yields `S[k]`, and every
dereference happens at an offset in `[0, n)`, never at the end offset. -/
theorem C17_forward_loop_visits_all (c : IMessageVector D O) (fuel : Nat)
    (hsize : (c.size : Int) ≤ INT_MAX) (hfuel : c.size < fuel) :
    ∃ tr, forward_loop fuel c.begin c.end_ = some (.ok tr) ∧
      tr.length = c.size ∧
      ∀ (k : Nat) (p : Int × IMsg D O), tr[k]? = some p →
        p.1 = (k : Int) ∧ c.operator_index k = .ok p.2 ∧
        0 ≤ p.1 ∧ p.1 < (c.size : Int) ∧ p.1 ≠ c.end_.index := by
  have hn : c.size ≤ 2147483647 := le_of_le_INT_MAX _ hsize
  obtain ⟨tr, htr, hlen, hall⟩ := forward_loop_trace c hn fuel 0 (Nat.zero_le _) (by omega)
  have hend : c.end_.index = (c.size : Int) := int_of_size_type_small c.size hn
  refine ⟨tr, ?_, by omega, ?_⟩
  · simp only [IMessageVector.begin, IMessageVector.end_, Iterator.ctor,
      int_of_size_type_small c.size hn]
    simpa using htr
  · intro k p hk
    obtain ⟨h1, h2⟩ := hall k p hk
    simp only [zero_add] at h1 h2
    have hlt : k < c.size := lt_size_of_operator_index_ok c k p.2 h2
    refine ⟨h1, h2, ?_, ?_, ?_⟩
    · rw [h1]; omega
    · rw [h1]; omega
    · rw [h1, hend]; omega

/-- C17 (amended), at the values `[1, 2, 3]` and at the empty sequence. -/
theorem C17_forward_loop_visits_all_witness :
    (∃ tr, forward_loop 4 (IMessageVector.messageVector 0 (vecAB [1, 2, 3])).begin
        (IMessageVector.messageVector 0 (vecAB [1, 2, 3])).end_ = some (.ok tr) ∧
      tr.length = (IMessageVector.messageVector 0 (vecAB [1, 2, 3])).size ∧
      ∀ (k : Nat) (p : Int × IMsg B A), tr[k]? = some p →
        p.1 = (k : Int) ∧
        (IMessageVector.messageVector 0 (vecAB [1, 2, 3])).operator_index k = .ok p.2 ∧
        0 ≤ p.1 ∧ p.1 < ((IMessageVector.messageVector 0 (vecAB [1, 2, 3])).size : Int) ∧
        p.1 ≠ (IMessageVector.messageVector 0 (vecAB [1, 2, 3])).end_.index) ∧
    forward_loop 4 (IMessageVector.messageVector 0 (vecAB [1, 2, 3])).begin
      (IMessageVector.messageVector 0 (vecAB [1, 2, 3])).end_
      = some (.ok [(0, .derived ⟨1⟩), (1, .derived ⟨2⟩), (2, .derived ⟨3⟩)]) ∧
    forward_loop 1 (IMessageVector.messageVector 0 (vecAB [])).begin
      (IMessageVector.messageVector 0 (vecAB [])).end_ = some (.ok []) :=
  ⟨C17_forward_loop_visits_all (IMessageVector.messageVector 0 (vecAB [1, 2, 3])) 4
    (by decide) (by decide), rfl, rfl⟩

/-- C18 (the code at the failing input): on a forward iterator at offset 0, `++it` moves to
offset 1 and `--it` then moves to offset 2; the result does not compare equal to the original.
The same holds on a reverse iterator at offset 1, which ends at offset 3. -/
theorem C18_incr_decr_at_concrete :
    ((Iterator.ctor (.messageVector 0 (vecAB [1, 2, 3])) 0 : Iterator B A false).operator_incr.bind
      fun it1 => it1.operator_decr).map
      (fun it2 => (it2.index,
        it2.operator_eq (Iterator.ctor (.messageVector 0 (vecAB [1, 2, 3])) 0)))
      = .ok (2, false) ∧
    ((Iterator.ctor (.messageVector 0 (vecAB [1, 2, 3])) 1 : Iterator B A true).operator_incr.bind
      fun it1 => it1.operator_decr).map
      (fun it2 => (it2.index,
        it2.operator_eq (Iterator.ctor (.messageVector 0 (vecAB [1, 2, 3])) 1)))
      = .ok (3, false) := by
  refine ⟨rfl, rfl⟩

end Claims

end MsgVec
